import Mathlib

/-!
Verification of the strided BLAS-style vector primitives of this repository:
`copy` / `scopy` / `dcopy` (src/copy.rs) and `drot` (src/drot.rs).

Modelling conventions:
* A Rust slice `&[T]` / `&mut [T]` is a `List α`; in-place mutation becomes
  explicit state passing, and the functions return the final buffer contents.
* Rust slice indexing panics when out of bounds; the embedding is total and
  returns `none` on any out-of-bounds read or write (`Option`-valued results).
* `isize` / `usize` are `Int` / `Nat`; the cast `v as usize` is modelled
  explicitly as `v mod 2 ^ 64` (`asUsize`), since for negative `v` the wrap is
  observable, and `usize` arithmetic on the length bound of `drot`'s checks
  is taken modulo `2 ^ 64`, since for strides with `(n-1) * |inc| >= 2 ^ 64`
  the wrap is observable (release-mode wrapping semantics; debug builds would
  panic at the overflow instead).  The casts `incx as usize` (under an
  `incx > 0` guard) and
  `(-incx) as usize` (under an `incx < 0` guard) always compute `|incx|` for
  every `isize` value (including `isize::MIN`, where the two's-complement wrap
  of the negation still casts to `2 ^ 63 = |incx|`), so they are modelled by
  `Int.natAbs`.
* `f64` is modelled by an abstract scalar type `α` carrying uninterpreted
  `Mul`, `Add`, `Sub`, `One`, `Zero` operations and decidable equality, so a
  proved equation between results means the same operations were applied to
  the same operands in the same combination, with no appeal to arithmetic
  laws IEEE floats do not satisfy.  (The comparisons `c == 1.0`, `s == 0.0`
  in the source are modelled as equality on `α`; the IEEE peculiarities
  `-0.0 == 0.0` and `NaN != NaN` are outside this model, and no claim
  exercises them.)  `copy` is generic in the element type exactly like the
  Rust `copy::<T: Copy>`.
-/

/-- The `usize` cast of a signed value (`v as usize` in Rust on a 64-bit
target): the value modulo `2 ^ 64`. -/
def asUsize (v : Int) : Nat := (v % (2 ^ 64 : Int)).toNat

/-- Bounds-checked write `xs[i] = v`: `none` models the Rust panic on an
out-of-bounds index. -/
def setOpt {α : Type} (xs : List α) (i : Nat) (v : α) : Option (List α) :=
  if i < xs.length then some (xs.set i v) else none

/-- Modelled from the spec: `check_inc` lives in `crate::utils`, which is not
under src/ (only its callers in src/copy.rs are).  Spec 4.1: "returns valid
iff `n <= 0` (trivially valid) OR the buffer length is at least
`1 + (n-1) * |inc|`"; the buffer is passed as its physical length. -/
def check_inc (n : Int) (len : Nat) (inc : Int) : Bool :=
  decide (n ≤ 0) || decide ((1 : Int) + (n - 1) * (inc.natAbs : Int) ≤ (len : Int))

/-- Modelled from the spec: `get_first_index` lives in `crate::utils`, which
is not under src/.  Spec 4.1 starting-index rule: "if `inc > 0`, start = 0.
If `inc < 0`, start = `(n-1) * |inc|`.  If `inc == 0`, start = 0."  It is
called with the already-cast `usize` count. -/
def get_first_index (n : Nat) (inc : Int) : Nat :=
  if inc < 0 then (n - 1) * inc.natAbs else 0

/-- The contiguous fast path of `copy` (src/copy.rs lines 11-16):
`for i in 0..n_usize { y[i] = x[i]; }`, with `k` the remaining iteration
count and `i` the current index. -/
def copyFast {α : Type} (x : List α) : Nat → Nat → List α → Option (List α)
  | 0, _, y => some y
  | k + 1, i, y =>
    match x[i]? with
    | none => none
    | some v =>
      match setOpt y i v with
      | none => none
      | some y1 => copyFast x k (i + 1) y1

/-- The general strided loop of `copy` (src/copy.rs lines 24-37): each step
does `y[iy] = x[ix]` and then advances each cursor by `+abs` if its stride is
positive, `-abs` otherwise.  `a` and `b` are `incx_abs` and `incy_abs`.  (The
Rust cursors are `usize`; the final post-loop cursor update may underflow for
a negative stride, but that value is never used, and truncated `Nat`
subtraction agrees with the wrapped value at every index that is used.) -/
def copyLoop {α : Type} (incx : Int) (a : Nat) (incy : Int) (b : Nat) (x : List α) :
    Nat → Nat → Nat → List α → Option (List α)
  | 0, _, _, y => some y
  | k + 1, ix, iy, y =>
    match x[ix]? with
    | none => none
    | some v =>
      match setOpt y iy v with
      | none => none
      | some y1 =>
        copyLoop incx a incy b x k
          (if 0 < incx then ix + a else ix - a)
          (if 0 < incy then iy + b else iy - b) y1

/-- `fn copy<T: Copy>(n, x, incx, y, incy) -> bool` from src/copy.rs: validate
both views with `check_inc`, then run the contiguous fast path when
`incx == 1 && incy == 1`, otherwise the general strided loop starting from
`get_first_index`.  Returns the success flag and the final contents of `y`
(`x` is a shared `&[T]` and cannot change). -/
def copy {α : Type} (n : Int) (x : List α) (incx : Int) (y : List α) (incy : Int) :
    Option (Bool × List α) :=
  if ¬ check_inc n x.length incx = true ∨ ¬ check_inc n y.length incy = true then
    some (false, y)
  else
    if incx = 1 ∧ incy = 1 then
      Option.map (fun y1 => (true, y1)) (copyFast x (asUsize n) 0 y)
    else
      Option.map (fun y1 => (true, y1))
        (copyLoop incx incx.natAbs incy incy.natAbs x (asUsize n)
          (get_first_index (asUsize n) incx) (get_first_index (asUsize n) incy) y)

/-- `scopy` (src/copy.rs): thin wrapper calling `copy::<f32>`.  `copy` never
computes on elements, only moves them, so any element type is a faithful
stand-in for `f32`; we fix `ℚ`. -/
def scopy (n : Int) (x : List ℚ) (incx : Int) (y : List ℚ) (incy : Int) :
    Option (Bool × List ℚ) :=
  copy n x incx y incy

/-- `dcopy` (src/copy.rs): thin wrapper calling `copy::<f64>`, modelled like
`scopy`. -/
def dcopy (n : Int) (x : List ℚ) (incx : Int) (y : List ℚ) (incy : Int) :
    Option (Bool × List ℚ) :=
  copy n x incx y incy

/-- The contiguous fast path of `drot` (src/drot.rs lines 98-105): per step
`temp = c*x[i] + s*y[i]; y[i] = c*y[i] - s*x[i]; x[i] = temp;` — both reads
happen before either write. -/
def drotFast {α : Type} [Mul α] [Add α] [Sub α] (c s : α) :
    Nat → Nat → List α → List α → Option (List α × List α)
  | 0, _, x, y => some (x, y)
  | k + 1, i, x, y =>
    match x[i]?, y[i]? with
    | some xi, some yi =>
      (match setOpt y i (c * yi - s * xi) with
       | none => none
       | some y1 =>
         match setOpt x i (c * xi + s * yi) with
         | none => none
         | some x1 => drotFast c s k (i + 1) x1 y1)
    | _, _ => none

/-- The general strided loop of `drot` (src/drot.rs lines 125-140): the same
per-step formula at cursors `ix`, `iy`, then each cursor advances by `+abs`
for a positive stride, `-abs` otherwise (`a` = `incx_abs`, `b` = `incy_abs`;
truncated `Nat` subtraction as in `copyLoop`). -/
def drotLoop {α : Type} [Mul α] [Add α] [Sub α] (c s : α)
    (incx : Int) (a : Nat) (incy : Int) (b : Nat) :
    Nat → Nat → Nat → List α → List α → Option (List α × List α)
  | 0, _, _, x, y => some (x, y)
  | k + 1, ix, iy, x, y =>
    match x[ix]?, y[iy]? with
    | some xi, some yi =>
      (match setOpt y iy (c * yi - s * xi) with
       | none => none
       | some y1 =>
         match setOpt x ix (c * xi + s * yi) with
         | none => none
         | some x1 =>
           drotLoop c s incx a incy b k
             (if 0 < incx then ix + a else ix - a)
             (if 0 < incy then iy + b else iy - b) x1 y1)
    | _, _ => none

/-- `pub fn drot(n, x, incx, y, incy, c, s) -> bool` from src/drot.rs:
early return for `n <= 0`; early return for the identity rotation
`c == 1.0 && s == 0.0`; then four guarded length checks (one per stride sign,
none when a stride is zero), whose bound `1 + ((n as usize) - 1) * |inc|` is
computed in `usize`, where the arithmetic wraps modulo `2 ^ 64` (release-mode
semantics) — for `(n-1) * |inc| >= 2 ^ 64` the wrapped bound is smaller than
the mathematical one and undersized buffers pass the check; then the
contiguous fast path when `incx == 1 && incy == 1`, otherwise the general
loop with start index `|inc| * (n_usize - 1)` for a negative stride and `0`
otherwise.  Returns the success flag and the final contents of `x` and
`y`. -/
def drot {α : Type} [Mul α] [Add α] [Sub α] [One α] [Zero α] [DecidableEq α]
    (n : Int) (x : List α) (incx : Int) (y : List α) (incy : Int) (c s : α) :
    Option (Bool × List α × List α) :=
  if n ≤ 0 then some (true, x, y)
  else if c = 1 ∧ s = 0 then some (true, x, y)
  else if 0 < incx ∧ x.length < (1 + (asUsize n - 1) * incx.natAbs) % 2 ^ 64 then
    some (false, x, y)
  else if incx < 0 ∧ x.length < (1 + (asUsize n - 1) * incx.natAbs) % 2 ^ 64 then
    some (false, x, y)
  else if 0 < incy ∧ y.length < (1 + (asUsize n - 1) * incy.natAbs) % 2 ^ 64 then
    some (false, x, y)
  else if incy < 0 ∧ y.length < (1 + (asUsize n - 1) * incy.natAbs) % 2 ^ 64 then
    some (false, x, y)
  else
    if incx = 1 ∧ incy = 1 then
      Option.map (fun p => (true, p)) (drotFast c s (asUsize n) 0 x y)
    else
      Option.map (fun p => (true, p))
        (drotLoop c s incx incx.natAbs incy incy.natAbs (asUsize n)
          (if incx < 0 then incx.natAbs * (asUsize n - 1) else 0)
          (if incy < 0 then incy.natAbs * (asUsize n - 1) else 0) x y)

/-- Physical index of logical element `i` of an `n`-element view with stride
`inc` (spec section 3): `start + i * |inc|` walked in the stride's direction,
with `start = 0` for `inc >= 0` and `start = (n-1) * |inc|` for `inc < 0`. -/
def logIdx (n : Nat) (inc : Int) (i : Nat) : Nat :=
  if inc < 0 then (n - 1 - i) * inc.natAbs else i * inc.natAbs

/-- The cursor position after `j` steps of the walkers' per-step cursor
update, starting from `i0`, for a stride `inc` with absolute value `a`. -/
def visit (inc : Int) (a : Nat) (i0 : Nat) : Nat → Nat
  | 0 => i0
  | j + 1 => if 0 < inc then visit inc a i0 j + a else visit inc a i0 j - a

theorem visit_zero (inc : Int) (a i0 : Nat) : visit inc a i0 0 = i0 := rfl

theorem visit_succ (inc : Int) (a i0 j : Nat) :
    visit inc a i0 (j + 1) = if 0 < inc then visit inc a i0 j + a else visit inc a i0 j - a :=
  rfl

theorem visit_shift (inc : Int) (a i0 : Nat) :
    ∀ j, visit inc a (if 0 < inc then i0 + a else i0 - a) j = visit inc a i0 (j + 1) := by
  intro j
  induction j with
  | zero => rfl
  | succ j ih => simp only [visit_succ, ih]

theorem visit_of_pos (inc : Int) (a i0 : Nat) (h : 0 < inc) :
    ∀ j, visit inc a i0 j = i0 + j * a := by
  intro j
  induction j with
  | zero => simp [visit_zero]
  | succ j ih => rw [visit_succ, if_pos h, ih, Nat.succ_mul, Nat.add_assoc]

theorem visit_of_nonpos (inc : Int) (a i0 : Nat) (h : ¬ 0 < inc) :
    ∀ j, visit inc a i0 j = i0 - j * a := by
  intro j
  induction j with
  | zero => simp [visit_zero]
  | succ j ih => rw [visit_succ, if_neg h, ih, Nat.succ_mul, Nat.sub_sub]

/-- Starting from the spec's start index, the cursor sequence of an
`n`-element view visits exactly the physical indices of the logical
elements, in logical order. -/
theorem visit_get_first_index (n : Nat) (inc : Int) :
    ∀ j, visit inc inc.natAbs (get_first_index n inc) j = logIdx n inc j := by
  intro j
  by_cases h : inc < 0
  · have hnp : ¬ 0 < inc := by omega
    rw [visit_of_nonpos inc inc.natAbs _ hnp, get_first_index, if_pos h, logIdx, if_pos h,
      Nat.sub_mul (n - 1) j inc.natAbs]
  · have hnn : ¬ inc < 0 := h
    rw [get_first_index, if_neg hnn, logIdx, if_neg hnn]
    by_cases hp : 0 < inc
    · rw [visit_of_pos inc inc.natAbs _ hp, Nat.zero_add]
    · have h0 : inc = 0 := by omega
      rw [visit_of_nonpos inc inc.natAbs _ hp, h0]
      simp

theorem asUsize_of_range (n : Int) (h0 : 0 ≤ n) (h1 : n < 2 ^ 64) :
    asUsize n = n.toNat := by
  rw [asUsize, Int.emod_eq_of_lt h0 h1]

/-- With unit strides, the contiguous fast path of `copy` computes exactly
what the general strided loop computes from the same cursor: the same reads,
the same writes, in the same order. -/
theorem copyFast_eq_copyLoop {α : Type} (x : List α) :
    ∀ (k i : Nat) (y : List α), copyFast x k i y = copyLoop 1 1 1 1 x k i i y := by
  intro k
  induction k with
  | zero => intro i y; rfl
  | succ k ih =>
    intro i y
    cases h : x[i]? with
    | none => simp [copyFast, copyLoop, h]
    | some v =>
      cases h2 : setOpt y i v with
      | none => simp [copyFast, copyLoop, h, h2]
      | some y1 => simp [copyFast, copyLoop, h, h2, ih]

/-- With unit strides, the contiguous fast path of `drot` computes exactly
what the general strided loop computes from the same cursors: the same
per-step formula, the same order of operations. -/
theorem drotFast_eq_drotLoop {α : Type} [Mul α] [Add α] [Sub α] (c s : α) :
    ∀ (k i : Nat) (x y : List α), drotFast c s k i x y = drotLoop c s 1 1 1 1 k i i x y := by
  intro k
  induction k with
  | zero => intro i x y; rfl
  | succ k ih =>
    intro i x y
    cases h : x[i]? with
    | none => simp [drotFast, drotLoop, h]
    | some xi =>
      cases h2 : y[i]? with
      | none => simp [drotFast, drotLoop, h, h2]
      | some yi =>
        cases h3 : setOpt y i (c * yi - s * xi) with
        | none => simp [drotFast, drotLoop, h, h2, h3]
        | some y1 =>
          cases h4 : setOpt x i (c * xi + s * yi) with
          | none => simp [drotFast, drotLoop, h, h2, h3, h4]
          | some x1 => simp [drotFast, drotLoop, h, h2, h3, h4, ih]

/-- Characterization of `copy`'s general strided loop: when every cursor
position it will visit is in bounds and the destination cursor sequence is
injective, the loop succeeds, preserves the destination length, ends with
the source value of step `j` at the destination position of step `j`, and
leaves unvisited destination positions unchanged. -/
theorem copyLoop_spec {α : Type} (incx : Int) (a : Nat) (incy : Int) (b : Nat) (x : List α) :
    ∀ (k ix iy : Nat) (y : List α),
      (∀ j, j < k → visit incx a ix j < x.length) →
      (∀ j, j < k → visit incy b iy j < y.length) →
      (∀ j j2, j < k → j2 < k → visit incy b iy j = visit incy b iy j2 → j = j2) →
      ∃ yf, copyLoop incx a incy b x k ix iy y = some yf ∧
        yf.length = y.length ∧
        (∀ j, j < k → yf[visit incy b iy j]? = x[visit incx a ix j]?) ∧
        (∀ p, (∀ j, j < k → visit incy b iy j ≠ p) → yf[p]? = y[p]?) := by
  intro k
  induction k with
  | zero =>
    intro ix iy y _ _ _
    exact ⟨y, rfl, rfl, fun j hj => absurd hj (Nat.not_lt_zero j), fun p _ => rfl⟩
  | succ k ih =>
    intro ix iy y hx hy hinj
    have hix0 : ix < x.length := by
      have := hx 0 (Nat.succ_pos k); rwa [visit_zero] at this
    have hiy0 : iy < y.length := by
      have := hy 0 (Nat.succ_pos k); rwa [visit_zero] at this
    have hv : x[ix]? = some x[ix] := List.getElem?_eq_getElem hix0
    have hset : setOpt y iy x[ix] = some (y.set iy x[ix]) := by
      rw [setOpt, if_pos hiy0]
    have hx1 : ∀ j, j < k →
        visit incx a (if 0 < incx then ix + a else ix - a) j < x.length := by
      intro j hj
      rw [visit_shift]
      exact hx (j + 1) (Nat.succ_lt_succ hj)
    have hy1 : ∀ j, j < k →
        visit incy b (if 0 < incy then iy + b else iy - b) j < (y.set iy x[ix]).length := by
      intro j hj
      rw [visit_shift, List.length_set]
      exact hy (j + 1) (Nat.succ_lt_succ hj)
    have hinj1 : ∀ j j2, j < k → j2 < k →
        visit incy b (if 0 < incy then iy + b else iy - b) j =
          visit incy b (if 0 < incy then iy + b else iy - b) j2 → j = j2 := by
      intro j j2 hj hj2 hee
      rw [visit_shift, visit_shift] at hee
      have := hinj (j + 1) (j2 + 1) (Nat.succ_lt_succ hj) (Nat.succ_lt_succ hj2) hee
      omega
    obtain ⟨yf, hrun, hlen, hvals, hframe⟩ :=
      ih (if 0 < incx then ix + a else ix - a) (if 0 < incy then iy + b else iy - b)
        (y.set iy x[ix]) hx1 hy1 hinj1
    refine ⟨yf, ?_, ?_, ?_, ?_⟩
    · rw [copyLoop, hv]
      show (match setOpt y iy x[ix] with
        | none => none
        | some y1 => copyLoop incx a incy b x k
            (if 0 < incx then ix + a else ix - a)
            (if 0 < incy then iy + b else iy - b) y1) = some yf
      rw [hset]
      exact hrun
    · rw [hlen, List.length_set]
    · intro j hj
      cases j with
      | zero =>
        rw [visit_zero, visit_zero]
        have huntouched : ∀ j2, j2 < k →
            visit incy b (if 0 < incy then iy + b else iy - b) j2 ≠ iy := by
          intro j2 hj2 heq
          rw [visit_shift] at heq
          have : visit incy b iy (j2 + 1) = visit incy b iy 0 := by rw [heq, visit_zero]
          exact absurd (hinj (j2 + 1) 0 (Nat.succ_lt_succ hj2) (Nat.succ_pos k) this)
            (Nat.succ_ne_zero j2)
        rw [hframe iy huntouched, List.getElem?_set_self hiy0, hv]
      | succ j =>
        have hjk : j < k := Nat.lt_of_succ_lt_succ hj
        have := hvals j hjk
        rwa [visit_shift, visit_shift] at this
    · intro p hp
      have hpne : iy ≠ p := by
        have := hp 0 (Nat.succ_pos k); rwa [visit_zero] at this
      have huntouched : ∀ j2, j2 < k →
          visit incy b (if 0 < incy then iy + b else iy - b) j2 ≠ p := by
        intro j2 hj2
        rw [visit_shift]
        exact hp (j2 + 1) (Nat.succ_lt_succ hj2)
      rw [hframe p huntouched, List.getElem?_set_ne hpne]

/-- `check_inc` decides exactly the spec 4.1 predicate. -/
theorem check_inc_eq_true_iff (n : Int) (len : Nat) (inc : Int) :
    check_inc n len inc = true ↔
      (n ≤ 0 ∨ (1 : Int) + (n - 1) * (inc.natAbs : Int) ≤ (len : Int)) := by
  rw [check_inc, Bool.or_eq_true, decide_eq_true_eq, decide_eq_true_eq]

/-- For a meaningful count (`n >= 1`), a passing `check_inc` yields the
minimum-length bound in `Nat` form. -/
theorem check_inc_le (n : Int) (len : Nat) (inc : Int) (hn : 1 ≤ n)
    (h : check_inc n len inc = true) :
    1 + (n.toNat - 1) * inc.natAbs ≤ len := by
  rw [check_inc_eq_true_iff] at h
  rcases h with h | h
  · omega
  · have hm : 1 ≤ n.toNat := by omega
    have hcast : ((1 + (n.toNat - 1) * inc.natAbs : Nat) : Int) =
        1 + (n - 1) * (inc.natAbs : Int) := by
      push_cast [Nat.cast_sub hm]
      rw [Int.toNat_of_nonneg (by omega : (0 : Int) ≤ n)]
    have : ((1 + (n.toNat - 1) * inc.natAbs : Nat) : Int) ≤ (len : Int) := by
      rw [hcast]; exact h
    exact_mod_cast this

/-- Every logical position of a view satisfying the minimum-length bound is
physically in bounds. -/
theorem logIdx_lt (n : Nat) (inc : Int) (len : Nat) (i : Nat)
    (hi : i < n) (hlen : 1 + (n - 1) * inc.natAbs ≤ len) :
    logIdx n inc i < len := by
  have hle : logIdx n inc i ≤ (n - 1) * inc.natAbs := by
    rw [logIdx]
    by_cases h : inc < 0
    · rw [if_pos h]
      exact Nat.mul_le_mul_right _ (by omega)
    · rw [if_neg h]
      exact Nat.mul_le_mul_right _ (by omega)
  omega

/-- For a nonzero stride, distinct logical positions have distinct physical
indices. -/
theorem logIdx_inj (n : Nat) (inc : Int) (hinc : inc ≠ 0) (i j : Nat)
    (hi : i < n) (hj : j < n) (h : logIdx n inc i = logIdx n inc j) : i = j := by
  have ha : 0 < inc.natAbs := Int.natAbs_pos.mpr hinc
  simp only [logIdx] at h
  by_cases hneg : inc < 0
  · rw [if_pos hneg, if_pos hneg] at h
    have := Nat.eq_of_mul_eq_mul_right ha h
    omega
  · rw [if_neg hneg, if_neg hneg] at h
    exact Nat.eq_of_mul_eq_mul_right ha h

/-- `copyLoop`, started from the spec start indices of two views that satisfy
the minimum-length bound, succeeds and realizes `y[logical i] = x[logical i]`
(destination stride nonzero). -/
theorem copyLoop_full {α : Type} (n : Nat) (x y : List α) (incx incy : Int)
    (hincy : incy ≠ 0)
    (hxlen : 1 + (n - 1) * incx.natAbs ≤ x.length)
    (hylen : 1 + (n - 1) * incy.natAbs ≤ y.length) :
    ∃ yf, copyLoop incx incx.natAbs incy incy.natAbs x n
        (get_first_index n incx) (get_first_index n incy) y = some yf ∧
      yf.length = y.length ∧
      (∀ i, i < n → yf[logIdx n incy i]? = x[logIdx n incx i]?) ∧
      (∀ p, (∀ i, i < n → logIdx n incy i ≠ p) → yf[p]? = y[p]?) := by
  obtain ⟨yf, hrun, hlen, hvals, hframe⟩ :=
    copyLoop_spec incx incx.natAbs incy incy.natAbs x n (get_first_index n incx)
      (get_first_index n incy) y
      (fun j hj => by
        rw [visit_get_first_index]; exact logIdx_lt n incx x.length j hj hxlen)
      (fun j hj => by
        rw [visit_get_first_index]; exact logIdx_lt n incy y.length j hj hylen)
      (fun j j2 hj hj2 he => logIdx_inj n incy hincy j j2 hj hj2 (by
        rwa [visit_get_first_index, visit_get_first_index] at he))
  refine ⟨yf, hrun, hlen, fun i hi => ?_, fun p hp => ?_⟩
  · have := hvals i hi
    rwa [visit_get_first_index, visit_get_first_index] at this
  · exact hframe p (fun j hj => by rw [visit_get_first_index]; exact hp j hj)

theorem natAbs_one : (1 : Int).natAbs = 1 := rfl

theorem get_first_index_one (n : Nat) : get_first_index n 1 = 0 := rfl

/-- Full characterization of a successful `copy` (destination stride
nonzero): both branches of the source realize `y[logical i] = x[logical i]`
at the spec's physical addressing, preserve the destination length, and
leave unvisited destination positions unchanged. -/
theorem copy_spec {α : Type} (n : Int) (x : List α) (incx : Int) (y : List α) (incy : Int)
    (hn : 1 ≤ n) (hn64 : n < 2 ^ 64) (hincy : incy ≠ 0)
    (hx : check_inc n x.length incx = true) (hy : check_inc n y.length incy = true) :
    ∃ yf, copy n x incx y incy = some (true, yf) ∧
      yf.length = y.length ∧
      (∀ i, i < n.toNat → yf[logIdx n.toNat incy i]? = x[logIdx n.toNat incx i]?) ∧
      (∀ p, (∀ i, i < n.toNat → logIdx n.toNat incy i ≠ p) → yf[p]? = y[p]?) := by
  have hu : asUsize n = n.toNat := asUsize_of_range n (by omega) hn64
  have hxlen := check_inc_le n x.length incx hn hx
  have hylen := check_inc_le n y.length incy hn hy
  rw [copy, if_neg (by simp [hx, hy]), hu]
  by_cases hfast : incx = 1 ∧ incy = 1
  · obtain ⟨h1, h2⟩ := hfast
    subst h1; subst h2
    rw [if_pos ⟨rfl, rfl⟩]
    obtain ⟨yf, hrun, hlen, hvals, hframe⟩ :=
      copyLoop_full n.toNat x y 1 1 hincy hxlen hylen
    rw [natAbs_one, get_first_index_one] at hrun
    refine ⟨yf, ?_, hlen, hvals, hframe⟩
    rw [copyFast_eq_copyLoop, hrun]
    rfl
  · rw [if_neg hfast]
    obtain ⟨yf, hrun, hlen, hvals, hframe⟩ :=
      copyLoop_full n.toNat x y incx incy hincy hxlen hylen
    refine ⟨yf, ?_, hlen, hvals, hframe⟩
    rw [hrun]
    rfl

/-- `copy` rejects the call when either view fails `check_inc`, returning
the untouched destination. -/
theorem copy_fail {α : Type} (n : Int) (x : List α) (incx : Int) (y : List α) (incy : Int)
    (h : check_inc n x.length incx = false ∨ check_inc n y.length incy = false) :
    copy n x incx y incy = some (false, y) := by
  rw [copy, if_pos]
  rcases h with h | h
  · exact Or.inl (by simp [h])
  · exact Or.inr (by simp [h])

/-- A `false` result of `copy` always carries the unmodified destination:
the only `false` exit is the pre-loop validation failure. -/
theorem copy_false_unchanged {α : Type} (n : Int) (x : List α) (incx : Int) (y : List α)
    (incy : Int) (yf : List α) (h : copy n x incx y incy = some (false, yf)) : yf = y := by
  rw [copy] at h
  by_cases hvalid : ¬ check_inc n x.length incx = true ∨ ¬ check_inc n y.length incy = true
  · rw [if_pos hvalid] at h
    simp at h
    exact h.symm
  · rw [if_neg hvalid] at h
    by_cases hfast : incx = 1 ∧ incy = 1
    · rw [if_pos hfast] at h
      cases hr : copyFast x (asUsize n) 0 y with
      | none => rw [hr] at h; simp at h
      | some y1 => rw [hr] at h; simp at h
    · rw [if_neg hfast] at h
      cases hr : copyLoop incx incx.natAbs incy incy.natAbs x (asUsize n)
          (get_first_index (asUsize n) incx) (get_first_index (asUsize n) incy) y with
      | none => rw [hr] at h; simp at h
      | some y1 => rw [hr] at h; simp at h

/-- Tagging a loop result with `true` can never produce a `false` result. -/
theorem option_map_true_eq_some_false {γ : Type} (r : Option γ) (q : γ) :
    Option.map (fun p => ((true : Bool), p)) r = some ((false : Bool), q) → False := by
  cases r with
  | none => intro h; simp at h
  | some v => intro h; simp at h

/-- A `false` result of `drot` always carries both buffers unmodified: the
only `false` exits are the pre-loop length checks. -/
theorem drot_false_unchanged {α : Type} [Mul α] [Add α] [Sub α] [One α] [Zero α]
    [DecidableEq α] (n : Int) (x : List α) (incx : Int) (y : List α) (incy : Int)
    (c s : α) (xf yf : List α)
    (h : drot n x incx y incy c s = some (false, xf, yf)) : xf = x ∧ yf = y := by
  rw [drot] at h
  split_ifs at h with h1 h2 h3 h4 h5 h6 h7
  · simp at h
  · simp at h
  · simp at h
    exact ⟨h.1.symm, h.2.symm⟩
  · simp at h
    exact ⟨h.1.symm, h.2.symm⟩
  · simp at h
    exact ⟨h.1.symm, h.2.symm⟩
  · simp at h
    exact ⟨h.1.symm, h.2.symm⟩
  all_goals exact (option_map_true_eq_some_false _ _ h).elim

/-- Past its two early exits, `drot` fails exactly when some view with a
NONZERO stride is shorter than the minimum-length bound as the code computes
it — in wrapping `usize` arithmetic; a zero-stride view is never
length-checked. -/
theorem drot_false_iff {α : Type} [Mul α] [Add α] [Sub α] [One α] [Zero α] [DecidableEq α]
    (n : Int) (x : List α) (incx : Int) (y : List α) (incy : Int) (c s : α)
    (hn : 1 ≤ n) (hcs : ¬ (c = 1 ∧ s = 0)) :
    drot n x incx y incy c s = some (false, x, y) ↔
      ((incx ≠ 0 ∧ x.length < (1 + (asUsize n - 1) * incx.natAbs) % 2 ^ 64) ∨
       (incy ≠ 0 ∧ y.length < (1 + (asUsize n - 1) * incy.natAbs) % 2 ^ 64)) := by
  rw [drot, if_neg (by omega : ¬ n ≤ 0), if_neg hcs]
  constructor
  · intro h
    split_ifs at h with h3 h4 h5 h6 h7
    · exact Or.inl ⟨by omega, h3.2⟩
    · exact Or.inl ⟨by omega, h4.2⟩
    · exact Or.inr ⟨by omega, h5.2⟩
    · exact Or.inr ⟨by omega, h6.2⟩
    all_goals exact (option_map_true_eq_some_false _ _ h).elim
  · intro h
    rcases h with ⟨hx0, hxlt⟩ | ⟨hy0, hylt⟩
    · rcases lt_trichotomy incx 0 with hneg | h0 | hpos
      · rw [if_neg (fun hc => absurd hc.1 (by omega)), if_pos ⟨hneg, hxlt⟩]
      · exact absurd h0 hx0
      · rw [if_pos ⟨hpos, hxlt⟩]
    · by_cases h3 : 0 < incx ∧ x.length < (1 + (asUsize n - 1) * incx.natAbs) % 2 ^ 64
      · rw [if_pos h3]
      · rw [if_neg h3]
        by_cases h4 : incx < 0 ∧ x.length < (1 + (asUsize n - 1) * incx.natAbs) % 2 ^ 64
        · rw [if_pos h4]
        · rw [if_neg h4]
          rcases lt_trichotomy incy 0 with hneg | h0 | hpos
          · rw [if_neg (fun hc => absurd hc.1 (by omega)), if_pos ⟨hneg, hylt⟩]
          · exact absurd h0 hy0
          · rw [if_pos ⟨hpos, hylt⟩]

/-- Validation facts are recoverable from a successful `copy`. -/
theorem copy_success_valid {α : Type} (n : Int) (x : List α) (incx : Int) (y : List α)
    (incy : Int) (yf : List α) (h : copy n x incx y incy = some (true, yf)) :
    check_inc n x.length incx = true ∧ check_inc n y.length incy = true := by
  by_cases hx : check_inc n x.length incx = true
  · by_cases hy : check_inc n y.length incy = true
    · exact ⟨hx, hy⟩
    · rw [copy, if_pos (Or.inr hy)] at h
      simp at h
  · rw [copy, if_pos (Or.inl hx)] at h
    simp at h

/-- A one-step unfolding of the fast path when the first read already
faults. -/
theorem copyFast_oob {α : Type} (x : List α) (k i : Nat) (y : List α)
    (hk : k ≠ 0) (h : x[i]? = none) : copyFast x k i y = none := by
  obtain ⟨k2, rfl⟩ := Nat.exists_eq_succ_of_ne_zero hk
  rw [copyFast, h]

/-- C1: for every count `n >= 1`, all strides, and all buffer contents and
lengths (including buffers far too short for `n`), the identity rotation
`drot(n, x, incx, y, incy, 1.0, 0.0)` returns success and leaves both
buffers unchanged — the identity test `c == 1.0 && s == 0.0` is decided
before any buffer-length validation or buffer access. -/
theorem spec_c1 {α : Type} [Mul α] [Add α] [Sub α] [One α] [Zero α] [DecidableEq α]
    (n incx incy : Int) (x y : List α) (hn : 1 ≤ n) :
    drot n x incx y incy (1 : α) (0 : α) = some (true, x, y) := by
  rw [drot, if_neg (by omega : ¬ n ≤ 0), if_pos ⟨rfl, rfl⟩]

theorem spec_c1_witness :
    drot 4 ([1, 2] : List ℤ) 3 ([] : List ℤ) (-2) 1 0 = some (true, [1, 2], []) :=
  spec_c1 4 3 (-2) [1, 2] [] (by norm_num)

/-- C2: the claim (and drot.rs's own doc comment) says `incx == 0` or
`incy == 0` is an unconditional immediate success before length validation,
with no buffer access; the code has no such branch — at `n = 1, x = [7],
incx = 0, y = [2], incy = 1, c = 0, s = 1` it runs the loop and rewrites
both buffers, refuting the claimed no-op. -/
theorem spec_c2 :
    drot 1 ([7] : List ℤ) 0 [2] 1 0 1 = some (true, [2], [-7]) := by decide

/-- C3 counterexample, two independent failure modes of the claimed
validator contract for drot.  First, at `n = 1, incx = 0` the claimed
predicate requires buffer length >= 1, so an empty `x` should make drot
return false with untouched buffers; instead drot accepts the view (a
zero-stride view is never length-checked) and the loop faults reading
`x[0]` (Rust: panic; model: `none`).  Second, at `n = 3,
incx = -2^63 (isize::MIN), x` of length 1, the claimed predicate requires
length >= `1 + 2 * 2^63`, but the code computes that bound in `usize`,
where it wraps to 1: the undersized view passes the check and the loop
faults instead of returning false. -/
theorem spec_c3_cex :
    (drot 1 ([] : List ℤ) 0 [5] 1 0 1 = none ∧
      check_inc 1 ([] : List ℤ).length 0 = false) ∧
    (drot 3 ([5] : List ℤ) (-(2 ^ 63)) [1, 2, 3] 1 0 1 = none ∧
      check_inc 3 ([5] : List ℤ).length (-(2 ^ 63)) = false) := by
  exact ⟨⟨by decide, by decide⟩, ⟨by decide, by decide⟩⟩

/-- C3 amended: `check_inc` (used by copy/scopy/dcopy) accepts exactly when
`n <= 0` or the length is at least `1 + (n-1)*|inc|` (degenerating to
length >= 1 for `inc = 0, n >= 1`), and copy returns false when either view
fails it.  drot, past its early exits, applies a minimum-length test only
to views with a NONZERO stride, and computes the bound
`1 + ((n as usize) - 1) * |inc|` in wrapping `usize` arithmetic: it returns
false (buffers untouched) exactly when some nonzero-stride view is shorter
than that WRAPPED bound (third conjunct); whenever the bound does not
overflow `usize` — in particular for every stride with
`(n-1) * |inc| < 2^64` — this is exactly the spec's bound (fourth
conjunct).  A zero-stride view is never length-checked, and a view whose
bound overflows is effectively unchecked too: in both cases undersized
buffers pass validation and the loop faults instead of returning false. -/
theorem spec_c3 :
    (∀ (n : Int) (len : Nat) (inc : Int),
      check_inc n len inc = true ↔
        (n ≤ 0 ∨ (1 : Int) + (n - 1) * (inc.natAbs : Int) ≤ (len : Int))) ∧
    (∀ (α : Type) (n : Int) (x : List α) (incx : Int) (y : List α) (incy : Int),
      (check_inc n x.length incx = false ∨ check_inc n y.length incy = false) →
      copy n x incx y incy = some (false, y)) ∧
    (∀ (α : Type) [Mul α] [Add α] [Sub α] [One α] [Zero α] [DecidableEq α]
      (n : Int) (x : List α) (incx : Int) (y : List α) (incy : Int) (c s : α),
      1 ≤ n → ¬ (c = 1 ∧ s = 0) →
      (drot n x incx y incy c s = some (false, x, y) ↔
        ((incx ≠ 0 ∧ x.length < (1 + (asUsize n - 1) * incx.natAbs) % 2 ^ 64) ∨
         (incy ≠ 0 ∧ y.length < (1 + (asUsize n - 1) * incy.natAbs) % 2 ^ 64)))) ∧
    (∀ (α : Type) [Mul α] [Add α] [Sub α] [One α] [Zero α] [DecidableEq α]
      (n : Int) (x : List α) (incx : Int) (y : List α) (incy : Int) (c s : α),
      1 ≤ n → ¬ (c = 1 ∧ s = 0) →
      1 + (asUsize n - 1) * incx.natAbs < 2 ^ 64 →
      1 + (asUsize n - 1) * incy.natAbs < 2 ^ 64 →
      (drot n x incx y incy c s = some (false, x, y) ↔
        ((incx ≠ 0 ∧ x.length < 1 + (asUsize n - 1) * incx.natAbs) ∨
         (incy ≠ 0 ∧ y.length < 1 + (asUsize n - 1) * incy.natAbs)))) := by
  refine ⟨check_inc_eq_true_iff, ?_, ?_, ?_⟩
  · intro _ n x incx y incy h
    exact copy_fail n x incx y incy h
  · intro α instM instA instS instO instZ instD n x incx y incy c s hn hcs
    exact drot_false_iff n x incx y incy c s hn hcs
  · intro α instM instA instS instO instZ instD n x incx y incy c s hn hcs hbx hby
    rw [← Nat.mod_eq_of_lt hbx, ← Nat.mod_eq_of_lt hby]
    exact drot_false_iff n x incx y incy c s hn hcs

theorem spec_c3_witness :
    copy 2 ([1, 2, 3] : List ℤ) 1 [9] 1 = some (false, [9]) ∧
      drot 2 ([1] : List ℤ) 1 [4, 5] 1 0 1 = some (false, [1], [4, 5]) :=
  ⟨spec_c3.2.1 ℤ 2 [1, 2, 3] 1 [9] 1 (Or.inr (by decide)),
   (spec_c3.2.2.2 ℤ 2 [1] 1 [4, 5] 1 0 1 (by norm_num) (by decide) (by decide)
     (by decide)).mpr (Or.inl ⟨by decide, by decide⟩)⟩

/-- C5 counterexample: with `incy = 0` every logical destination position
maps to physical index `start + i*0 = 0`; `copy(2, [1,2], 1, [9], 0)`
succeeds with final `y = [2]`, whose logical element 0 is `2`, not the
source's logical element 0, which is `1`. -/
theorem spec_c5_cex :
    copy 2 ([1, 2] : List ℤ) 1 [9] 0 = some (true, [2]) ∧
      ¬ ([2] : List ℤ)[logIdx 2 0 0]? = ([1, 2] : List ℤ)[logIdx 2 1 0]? := by
  exact ⟨by decide, by decide⟩

/-- C5 amended: for every `n >= 1`, strides with `incy` NONZERO (`incx` may
be anything, including 0), and buffers passing validation, a successful copy
sets the destination's logical element `i` — at physical index
`start + i*|inc|` walked in the stride direction — equal to the source's
logical element `i` for every `0 <= i < n`, preserves the destination's
length, and leaves unvisited destination positions unchanged (the source,
taken by shared reference, is unmodified by construction). -/
theorem spec_c5 :
    ∀ (α : Type) (n : Int) (x : List α) (incx : Int) (y : List α) (incy : Int),
      1 ≤ n → n < 2 ^ 64 → incy ≠ 0 →
      check_inc n x.length incx = true → check_inc n y.length incy = true →
      ∃ yf, copy n x incx y incy = some (true, yf) ∧
        yf.length = y.length ∧
        (∀ i, i < n.toNat → yf[logIdx n.toNat incy i]? = x[logIdx n.toNat incx i]?) ∧
        (∀ p, (∀ i, i < n.toNat → logIdx n.toNat incy i ≠ p) → yf[p]? = y[p]?) :=
  fun _ n x incx y incy hn hn64 hincy hx hy =>
    copy_spec n x incx y incy hn hn64 hincy hx hy

theorem spec_c5_witness :
    ∃ yf, copy 3 ([1, 2, 3] : List ℤ) 1 [0, 0, 0, 0, 0] (-2) = some (true, yf) ∧
      yf.length = ([0, 0, 0, 0, 0] : List ℤ).length ∧
      (∀ i, i < (3 : Int).toNat →
        yf[logIdx (3 : Int).toNat (-2) i]? = ([1, 2, 3] : List ℤ)[logIdx (3 : Int).toNat 1 i]?) ∧
      (∀ p, (∀ i, i < (3 : Int).toNat → logIdx (3 : Int).toNat (-2) i ≠ p) →
        yf[p]? = ([0, 0, 0, 0, 0] : List ℤ)[p]?) :=
  spec_c5 ℤ 3 [1, 2, 3] 1 [0, 0, 0, 0, 0] (-2) (by norm_num) (by norm_num) (by decide)
    (by decide) (by decide)

/-- C6: whenever copy or drot returns false, the mutable buffers are exactly
the ones passed in — the only false exits are the validation checks, which
run before any write. -/
theorem spec_c6 :
    (∀ (α : Type) (n : Int) (x : List α) (incx : Int) (y : List α) (incy : Int)
      (yf : List α), copy n x incx y incy = some (false, yf) → yf = y) ∧
    (∀ (α : Type) [Mul α] [Add α] [Sub α] [One α] [Zero α] [DecidableEq α]
      (n : Int) (x : List α) (incx : Int) (y : List α) (incy : Int) (c s : α)
      (xf yf : List α),
      drot n x incx y incy c s = some (false, xf, yf) → xf = x ∧ yf = y) := by
  constructor
  · intro α n x incx y incy yf h
    exact copy_false_unchanged n x incx y incy yf h
  · intro α instM instA instS instO instZ instD n x incx y incy c s xf yf h
    exact drot_false_unchanged n x incx y incy c s xf yf h

theorem spec_c6_witness :
    copy 5 ([1, 2] : List ℤ) 1 [8] 1 = some (false, [8]) ∧ ([8] : List ℤ) = [8] :=
  ⟨by decide, spec_c6.1 ℤ 5 [1, 2] 1 [8] 1 [8] (by decide)⟩

/-- C7: with `incx == 1` and `incy == 1`, the contiguous fast paths of copy
and drot compute exactly what the general strided-cursor paths compute from
the cursors the general path would use for unit strides (abs 1, start 0):
the same per-step formula, the same order of operations, on every input
(hence in particular on every input that passes validation). -/
theorem spec_c7 :
    (∀ (α : Type) (x : List α) (k : Nat) (y : List α),
      copyFast x k 0 y = copyLoop 1 1 1 1 x k 0 0 y) ∧
    (∀ (α : Type) [Mul α] [Add α] [Sub α] (c s : α) (k : Nat) (x y : List α),
      drotFast c s k 0 x y = drotLoop c s 1 1 1 1 k 0 0 x y) :=
  ⟨fun _ x k y => copyFast_eq_copyLoop x k 0 y,
   fun _ _ _ _ c s k x y => drotFast_eq_drotLoop c s k 0 x y⟩

/-- C8: with a zero stride drot performs no length check at all on that view
(both the `inc > 0` and `inc < 0` validation branches are skipped), so
validation passes even for an empty buffer and the loop's out-of-bounds
error branch is reachable: at `n = 1, x = [], incx = 0, y = [0], incy = 1,
c = 0, s = 1` (and symmetrically for an empty `y` with `incy = 0`) the
result is the error branch `none`, not a validation failure. -/
theorem spec_c8 :
    drot 1 ([] : List ℤ) 0 [0] 1 0 1 = none ∧
      drot 1 ([0] : List ℤ) 1 [] 0 0 1 = none := by
  exact ⟨by decide, by decide⟩

/-- C9: the claim says every `n <= 0` is a successful no-op for both
operations; drot checks `n <= 0` first and does return success untouched,
but copy has no such branch of its own — its validator accepts `n <= 0`, and
then `n as usize` wraps: for `n = -1` the fast path runs with count
`2^64 - 1` and immediately faults reading `x[0]` on empty buffers (Rust:
panic; model: `none`) instead of the claimed success. -/
theorem spec_c9 :
    drot (-1) ([] : List ℤ) 1 [] 1 0 1 = some (true, [], []) ∧
      copy 0 ([] : List ℤ) 1 [] 1 = some (true, []) ∧
      copy (-1) ([] : List ℤ) 1 [] 1 = none := by
  refine ⟨by decide, by decide, ?_⟩
  rw [copy, if_neg (by decide), if_pos ⟨rfl, rfl⟩,
    copyFast_oob ([] : List ℤ) (asUsize (-1)) 0 [] (by decide) rfl]
  rfl

/-- C10: round trip — for any `n >= 0` and nonzero strides of any sign, if
copying `x` into `y` succeeds and copying the result into `z` succeeds (each
buffer keeping its own stride), then `z` agrees with `x` at all `n` logical
positions. -/
theorem spec_c10 :
    ∀ (α : Type) (n : Int) (x : List α) (incx : Int) (y : List α) (incy : Int)
      (z : List α) (incz : Int) (yf zf : List α),
      0 ≤ n → n < 2 ^ 64 → incx ≠ 0 → incy ≠ 0 → incz ≠ 0 →
      copy n x incx y incy = some (true, yf) →
      copy n yf incy z incz = some (true, zf) →
      ∀ i, i < n.toNat → zf[logIdx n.toNat incz i]? = x[logIdx n.toNat incx i]? := by
  intro α n x incx y incy z incz yf zf hn hn64 hincx hincy hincz h1 h2 i hi
  have hn1 : 1 ≤ n := by omega
  obtain ⟨hx1, hy1⟩ := copy_success_valid n x incx y incy yf h1
  obtain ⟨hy2, hz2⟩ := copy_success_valid n yf incy z incz zf h2
  obtain ⟨yf2, hrun1, _, hvals1, _⟩ := copy_spec n x incx y incy hn1 hn64 hincy hx1 hy1
  obtain ⟨zf2, hrun2, _, hvals2, _⟩ := copy_spec n yf incy z incz hn1 hn64 hincz hy2 hz2
  have hyf : yf2 = yf := by
    rw [h1] at hrun1
    exact ((Prod.mk.injEq _ _ _ _).mp (Option.some.inj hrun1) |>.2).symm
  have hzf : zf2 = zf := by
    rw [h2] at hrun2
    exact ((Prod.mk.injEq _ _ _ _).mp (Option.some.inj hrun2) |>.2).symm
  rw [← hzf]
  rw [hvals2 i hi, ← hyf]
  exact hvals1 i hi

theorem spec_c10_witness :
    ([2, 1] : List ℤ)[logIdx (2 : Int).toNat (-1) 0]? =
      ([1, 2] : List ℤ)[logIdx (2 : Int).toNat 1 0]? :=
  spec_c10 ℤ 2 [1, 2] 1 [0, 0] (-1) [0, 0] (-1) [2, 1] [2, 1] (by norm_num) (by norm_num)
    (by decide) (by decide) (by decide) (by decide) (by decide) 0 (by decide)
